import Mathlib

/-!
Shallow embedding of the `RailaModule` peer-to-peer credit ledger
(`src/contracts/src/RailaModule.sol`) and verification of its
specification's claims.

Machine integers: the contract uses `uint256` with checked arithmetic.
Amounts, rates and timestamps are modelled as `Nat`.  Where the source
subtracts (`_repay`, `elapsed` in `updateLoan`), the model uses truncated
`Nat` subtraction; the places where this could diverge from the revert
behaviour of checked arithmetic are noted at the definitions, and the
theorems below are stated at inputs where no underflow occurs.

Environment: the trust oracle (`ICirclesHub.isTrusted`), the token's
`transferFrom` result and the Safe's `execTransactionFromModule` result
are passed in as boolean-valued functions.  `block.timestamp` is the
explicit argument `now`.  `msg.sender` is the explicit argument `caller`.
A reverting call returns the pre-call state, the EVM's rollback.

External effects are recorded as an ordered `Event` trace: one
`Event.mutation` per ledger-writing internal call, one `Event.transfer`
per token movement, carrying the success bit the environment reported.
-/

namespace Raila

/-- `struct UserLimits` (RailaModule.sol lines 25-32). -/
structure UserLimits where
  lendingCap : ℕ
  minLendIR : ℕ
  borrowCap : ℕ
  maxBorrowIR : ℕ
  minIRMargin : ℕ
deriving DecidableEq

/-- `struct UserBalance` (lines 34-40). -/
structure UserBalance where
  lent : ℕ
  owedPerSecond : ℕ
  borrowed : ℕ
  owesPerSecond : ℕ
  timestamp : ℕ
deriving DecidableEq

/-- `struct Loan` (lines 42-49). -/
structure Loan where
  amount : ℕ
  interestRatePerSecond : ℕ
  timestamp : ℕ
deriving DecidableEq

attribute [ext] UserLimits UserBalance Loan

/-- `uint256 constant DENOMINATOR = 1e18` (line 54). -/
def DENOMINATOR : ℕ := 10 ^ 18

/-- The contract's storage: `limits`, `balances` and `loans` mappings
(lines 56-59); `loans lender borrower` follows the source's
`loans[lender][borrower]` order.  Solidity mappings default to
zero-initialised entries, so total functions model them. -/
@[ext]
structure State (Addr : Type) where
  limits : Addr → UserLimits
  balances : Addr → UserBalance
  loans : Addr → Addr → Loan

/-- The all-zero `UserLimits`, a mapping's default entry. -/
def UserLimits.zero : UserLimits := ⟨0, 0, 0, 0, 0⟩

/-- The all-zero `UserBalance`, a mapping's default entry. -/
def UserBalance.zero : UserBalance := ⟨0, 0, 0, 0, 0⟩

/-- The all-zero `Loan`, a mapping's default entry. -/
def Loan.zero : Loan := ⟨0, 0, 0⟩

/-- The freshly deployed contract: every mapping entry is zero. -/
def emptyState (Addr : Type) : State Addr :=
  ⟨fun _ => UserLimits.zero, fun _ => UserBalance.zero, fun _ _ => Loan.zero⟩

variable {Addr : Type} [DecidableEq Addr]

/-- One storage write to `balances[a]`: read-modify-write, as a Solidity
field assignment on a mapping entry behaves. -/
def updBal (a : Addr) (f : UserBalance → UserBalance) (s : State Addr) : State Addr :=
  { s with balances := Function.update s.balances a (f (s.balances a)) }

/-- One storage write to `loans[lender][borrower]`. -/
def updLoan (lender borrower : Addr) (f : Loan → Loan) (s : State Addr) : State Addr :=
  let row := Function.update (s.loans lender) borrower (f (s.loans lender borrower))
  { s with loans := Function.update s.loans lender row }

@[simp]
theorem updBal_balances (a : Addr) (f : UserBalance → UserBalance) (s : State Addr) (x : Addr) :
    (updBal a f s).balances x = if x = a then f (s.balances a) else s.balances x := by
  simp [updBal, Function.update_apply]

@[simp]
theorem updBal_loans (a : Addr) (f : UserBalance → UserBalance) (s : State Addr) :
    (updBal a f s).loans = s.loans := rfl

@[simp]
theorem updBal_limits (a : Addr) (f : UserBalance → UserBalance) (s : State Addr) :
    (updBal a f s).limits = s.limits := rfl

@[simp]
theorem updLoan_loans (l b : Addr) (f : Loan → Loan) (s : State Addr) (x y : Addr) :
    (updLoan l b f s).loans x y =
      if x = l then (if y = b then f (s.loans l b) else s.loans l y) else s.loans x y := by
  unfold updLoan
  by_cases hx : x = l
  · subst hx
    by_cases hy : y = b <;> simp [Function.update_apply, hy]
  · simp [Function.update_apply, hx]

@[simp]
theorem updLoan_balances (l b : Addr) (f : Loan → Loan) (s : State Addr) :
    (updLoan l b f s).balances = s.balances := rfl

@[simp]
theorem updLoan_limits (l b : Addr) (f : Loan → Loan) (s : State Addr) :
    (updLoan l b f s).limits = s.limits := rfl

/-- `updateLoan(lender, borrower)` (lines 158-180), the interest-accrual
step; `now` stands for `block.timestamp`.  Writes follow source order.
`elapsed` uses truncated subtraction where the source's checked
arithmetic would revert for `now < loan.timestamp`; the clock is
monotone, and the theorems below assume `loan.timestamp ≤ now` where it
matters. -/
def updateLoan (lender borrower : Addr) (now : ℕ) (s : State Addr) : State Addr :=
  let loan := s.loans lender borrower
  if 0 < loan.amount then
    let elapsed := now - loan.timestamp
    let interest := loan.amount * loan.interestRatePerSecond * elapsed / DENOMINATOR
    let d := interest * loan.interestRatePerSecond / DENOMINATOR
    let s1 := updLoan lender borrower (fun ln => { ln with amount := ln.amount + interest }) s
    let s2 := updBal lender (fun ub => { ub with owedPerSecond := ub.owedPerSecond + d }) s1
    let s3 := updBal borrower (fun ub => { ub with owesPerSecond := ub.owesPerSecond + d }) s2
    let s4 := updBal lender (fun ub => { ub with lent := ub.lent + interest }) s3
    let s5 := updBal borrower (fun ub => { ub with borrowed := ub.borrowed + interest }) s4
    let s6 := updLoan lender borrower (fun ln => { ln with timestamp := now }) s5
    let s7 := updBal lender (fun ub => { ub with timestamp := now }) s6
    updBal borrower (fun ub => { ub with timestamp := now }) s7
  else
    let s6 := updLoan lender borrower (fun ln => { ln with timestamp := now }) s
    let s7 := updBal lender (fun ub => { ub with timestamp := now }) s6
    updBal borrower (fun ub => { ub with timestamp := now }) s7

/-- `_borrow(lender, borrower, amount, ir)` (lines 183-205): merge new
principal into the pair's loan with the weighted-average rate rule and
update both parties' aggregates. -/
def _borrow (lender borrower : Addr) (amount ir : ℕ) (s : State Addr) : State Addr :=
  let loan := s.loans lender borrower
  let d := amount * ir / DENOMINATOR
  let s1 := updBal lender (fun ub => { ub with owedPerSecond := ub.owedPerSecond + d }) s
  let s2 := updBal borrower (fun ub => { ub with owesPerSecond := ub.owesPerSecond + d }) s1
  let newAmount := loan.amount + amount
  let newIr := if loan.amount = 0 then ir
    else (loan.amount * loan.interestRatePerSecond + amount * ir) / newAmount
  let s3 := updLoan lender borrower
    (fun ln => { ln with amount := newAmount, interestRatePerSecond := newIr }) s2
  let s4 := updBal lender (fun ub => { ub with lent := ub.lent + amount }) s3
  updBal borrower (fun ub => { ub with borrowed := ub.borrowed + amount }) s4

/-- `_repay(lender, borrower, offered)` (lines 208-223): reduce the
pair's loan by `min(offered, amount)`, update aggregates, return the
repaid value.  The aggregate subtractions are truncated here where the
source reverts on underflow; in every state satisfying the ledger
invariant proved below they are exact. -/
def _repay (lender borrower : Addr) (offered : ℕ) (s : State Addr) : ℕ × State Addr :=
  let loan := s.loans lender borrower
  let repaid := if offered < loan.amount then offered else loan.amount
  let d := repaid * loan.interestRatePerSecond / DENOMINATOR
  let s1 := updBal lender (fun ub => { ub with owedPerSecond := ub.owedPerSecond - d }) s
  let s2 := updBal borrower (fun ub => { ub with owesPerSecond := ub.owesPerSecond - d }) s1
  let s3 := updLoan lender borrower (fun ln => { ln with amount := ln.amount - repaid }) s2
  let s4 := updBal lender (fun ub => { ub with lent := ub.lent - repaid }) s3
  (repaid, updBal borrower (fun ub => { ub with borrowed := ub.borrowed - repaid }) s4)

/-- `setSettings(_limits)` (lines 66-68): replace the caller's limits. -/
def setSettings (caller : Addr) (l : UserLimits) (s : State Addr) : State Addr :=
  { s with limits := Function.update s.limits caller l }

/-- An observable effect of an operation, in execution order: a ledger
write (one per internal mutating call) or a token transfer with the
success bit the token/Safe reported. -/
inductive Event (Addr : Type) where
  | mutation : Event Addr
  | transfer (payer payee : Addr) (amount : ℕ) (success : Bool) : Event Addr
deriving DecidableEq

/-- The contract's custom errors (lines 225-233). -/
inductive Err (Addr : Type) where
  | emptyPath : Err Addr
  | differentLengthsPathIRs (pathLength irsLength : ℕ) : Err Addr
  | overLendingCap (lender : Addr) (amount : ℕ) : Err Addr
  | overBorrowingCap (borrower : Addr) (amount : ℕ) : Err Addr
  | underLenderMinIR (lender : Addr) (ir : ℕ) : Err Addr
  | overBorrowerMaxIR (borrower : Addr) (ir : ℕ) : Err Addr
  | underRelayerMargin (borrower : Addr) (margin : ℕ) : Err Addr
  | lenderDoesNotTrustBorrower (lender borrower : Addr) : Err Addr
  | transferFailed : Err Addr
deriving DecidableEq

/-- The loop body of `borrow` (lines 80-119), walking `path`/`irs` in
step.  Last hop: the receiver is the caller and the borrower-side block
(guarded by `i < path.length - 1` in the source) is skipped.  Middle
hop: the receiver is the next path element and the next rate is needed
for the margin check.  On a failed check the state reached so far is
returned together with the error; `borrow` below rolls it back.  The
length-mismatch fallthrough branches are unreachable from `borrow`,
which checks the lengths first. -/
def borrowGo (caller : Addr) (amount now : ℕ) (trusted : Addr → Addr → Bool) :
    List Addr → List ℕ → State Addr → State Addr × List (Event Addr) × Option (Err Addr)
  | [sender], [ir], s =>
    let s1 := updateLoan sender caller now s
    let s2 := _borrow sender caller amount ir s1
    let evs := [Event.mutation, Event.mutation]
    if (s2.limits sender).lendingCap < (s2.balances sender).lent then
      (s2, evs, some (Err.overLendingCap sender (s2.balances sender).lent))
    else if ir < (s2.limits sender).minLendIR then
      (s2, evs, some (Err.underLenderMinIR sender ir))
    else if trusted sender caller = false then
      (s2, evs, some (Err.lenderDoesNotTrustBorrower sender caller))
    else
      (s2, evs, none)
  | sender :: receiver :: prest, ir :: ir2 :: irrest, s =>
    let s1 := updateLoan sender receiver now s
    let s2 := _borrow sender receiver amount ir s1
    let evs := [Event.mutation, Event.mutation]
    if (s2.limits sender).lendingCap < (s2.balances sender).lent then
      (s2, evs, some (Err.overLendingCap sender (s2.balances sender).lent))
    else if ir < (s2.limits sender).minLendIR then
      (s2, evs, some (Err.underLenderMinIR sender ir))
    else if (s2.limits receiver).borrowCap < (s2.balances receiver).borrowed then
      (s2, evs, some (Err.overBorrowingCap receiver (s2.balances receiver).borrowed))
    else if (s2.limits receiver).maxBorrowIR < ir then
      (s2, evs, some (Err.overBorrowerMaxIR receiver ir))
    else if ir2 < ir then
      (s2, evs, some (Err.underRelayerMargin receiver 0))
    else if ir2 - ir < (s2.limits receiver).minIRMargin then
      (s2, evs, some (Err.underRelayerMargin receiver (ir2 - ir)))
    else if trusted sender receiver = false then
      (s2, evs, some (Err.lenderDoesNotTrustBorrower sender receiver))
    else
      let r := borrowGo caller amount now trusted (receiver :: prest) (ir2 :: irrest) s2
      (r.1, evs ++ r.2.1, r.2.2)
  | [], _, s => (s, [], some Err.emptyPath)
  | p :: prest, irs, s =>
    (s, [], some (Err.differentLengthsPathIRs (p :: prest).length irs.length))

/-- `borrow(amount, path, irs)` (lines 70-132).  `trusted` is the
Circles hub's `isTrusted`; `execOk` reports whether
`execTransactionFromModule` on `path[0]` (pushing `amount` of the token
to the caller) succeeds.  A revert returns the pre-call state and an
empty trace. -/
def borrow (caller : Addr) (amount : ℕ) (path : List Addr) (irs : List ℕ)
    (trusted : Addr → Addr → Bool) (execOk : Addr → Addr → ℕ → Bool) (now : ℕ)
    (s : State Addr) : State Addr × List (Event Addr) × Option (Err Addr) :=
  match path with
  | [] => (s, [], some Err.emptyPath)
  | p0 :: prest =>
    if (p0 :: prest).length ≠ irs.length then
      (s, [], some (Err.differentLengthsPathIRs (p0 :: prest).length irs.length))
    else
      match borrowGo caller amount now trusted (p0 :: prest) irs s with
      | (s1, evs, none) =>
        if execOk p0 caller amount then
          (s1, evs ++ [Event.transfer p0 caller amount true], none)
        else (s, [], some Err.transferFailed)
      | (_, _, some e) => (s, [], some e)

/-- The loop of `repay` (lines 139-151) together with the final
settlement (lines 153-155).  `first` tracks the source's `i > 0` guard
on the mid-chain refund.  The source calls `TOKEN.transferFrom` and
discards its boolean result; the model records that reported result in
the trace (via `transferOk`) and, like the source, never acts on it. -/
def repayGo (caller : Addr) (now : ℕ) (transferOk : Addr → Addr → ℕ → Bool) :
    Bool → ℕ → List Addr → State Addr → State Addr × List (Event Addr)
  | _, amount, [lst], s =>
    (s, if 0 < amount
      then [Event.transfer caller lst amount (transferOk caller lst amount)] else [])
  | first, amount, borrower :: lender :: prest, s =>
    let s1 := updateLoan lender borrower now s
    let rs2 := _repay lender borrower amount s1
    let refund : List (Event Addr) :=
      if 0 < amount - rs2.1 ∧ first = false then
        [Event.transfer caller borrower (amount - rs2.1)
          (transferOk caller borrower (amount - rs2.1))]
      else []
    let r3 := repayGo caller now transferOk false rs2.1 (lender :: prest) rs2.2
    (r3.1, Event.mutation :: Event.mutation :: refund ++ r3.2)
  | _, _, [], s => (s, [])

/-- `repay(amount, path)` (lines 134-156).  The only revert is
`EmptyPath`; in particular no transfer result is ever checked. -/
def repay (caller : Addr) (amount : ℕ) (path : List Addr)
    (transferOk : Addr → Addr → ℕ → Bool) (now : ℕ) (s : State Addr) :
    State Addr × List (Event Addr) × Option (Err Addr) :=
  match path with
  | [] => (s, [], some Err.emptyPath)
  | p :: prest =>
    let r := repayGo caller now transferOk true amount (p :: prest) s
    (r.1, r.2, none)

/-- Is an event a token transfer? -/
def Event.isTransfer : Event Addr → Bool
  | Event.transfer _ _ _ _ => true
  | Event.mutation => false

/-- All ledger mutations of a trace precede all transfers. -/
def mutationsFirst : List (Event Addr) → Bool
  | [] => true
  | Event.mutation :: rest => mutationsFirst rest
  | Event.transfer _ _ _ _ :: rest => rest.all Event.isTransfer

/-- Cash moved by one event. -/
def Event.cash : Event Addr → ℕ
  | Event.mutation => 0
  | Event.transfer _ _ a _ => a

/-- Total cash moved in a trace. -/
def totalCash (evs : List (Event Addr)) : ℕ := (evs.map Event.cash).sum

/-- Payee and amount of a transfer event. -/
def Event.dest : Event Addr → Option (Addr × ℕ)
  | Event.mutation => none
  | Event.transfer _ payee a _ => some (payee, a)

/-- Payees with amounts of a trace's transfers, in order. -/
def transferDests (evs : List (Event Addr)) : List (Addr × ℕ) :=
  evs.filterMap Event.dest

/-- Payer of a transfer event. -/
def Event.payerOf : Event Addr → Option Addr
  | Event.mutation => none
  | Event.transfer payer _ _ _ => some payer

/-- Payers of a trace's transfers, in order. -/
def transferPayers (evs : List (Event Addr)) : List Addr :=
  evs.filterMap Event.payerOf

/-- Sum, over all loan ledger slots, of how far the slot's `amount`
dropped from `pre` to `post` (truncated at zero per slot). -/
def totalLoanReduction [Fintype Addr] (pre post : State Addr) : ℕ :=
  ∑ l : Addr, ∑ b : Addr, ((pre.loans l b).amount - (post.loans l b).amount)

/-- The account a borrower-side policy error blames, if the error is
one of the three borrower-side kinds. -/
def borrowerSideAccount : Err Addr → Option Addr
  | Err.overBorrowingCap a _ => some a
  | Err.overBorrowerMaxIR a _ => some a
  | Err.underRelayerMargin a _ => some a
  | _ => none

/-- The ledger invariant of the specification's §3: each account's
aggregates equal the sums over its loans. -/
def Inv [Fintype Addr] (s : State Addr) : Prop :=
  ∀ a : Addr, (s.balances a).lent = ∑ b : Addr, (s.loans a b).amount ∧
    (s.balances a).borrowed = ∑ l : Addr, (s.loans l a).amount

/-- States reachable from the freshly deployed contract by the exposed
API: `setSettings`, `borrow`, `repay` and a bare `updateLoan` (the
public accrual entry point), each at an arbitrary time and environment. -/
inductive Reachable : State Addr → Prop where
  | empty : Reachable (emptyState Addr)
  | settings (a : Addr) (l : UserLimits) (s : State Addr) :
      Reachable s → Reachable (setSettings a l s)
  | borrowStep (caller : Addr) (amount : ℕ) (path : List Addr) (irs : List ℕ)
      (trusted : Addr → Addr → Bool) (execOk : Addr → Addr → ℕ → Bool) (now : ℕ)
      (s : State Addr) : Reachable s →
      Reachable (borrow caller amount path irs trusted execOk now s).1
  | repayStep (caller : Addr) (amount : ℕ) (path : List Addr)
      (transferOk : Addr → Addr → ℕ → Bool) (now : ℕ) (s : State Addr) :
      Reachable s → Reachable (repay caller amount path transferOk now s).1
  | accrue (lender borrower : Addr) (now : ℕ) (s : State Addr) :
      Reachable s → Reachable (updateLoan lender borrower now s)

/-- The interest `updateLoan` adds (source line 166):
`loan.amount * loan.interestRatePerSecond * elapsed / DENOMINATOR`. -/
def interestOf (lender borrower : Addr) (now : ℕ) (s : State Addr) : ℕ :=
  (s.loans lender borrower).amount * (s.loans lender borrower).interestRatePerSecond
    * (now - (s.loans lender borrower).timestamp) / DENOMINATOR

/-- The accrual-rate delta `updateLoan` adds (source line 169):
`interest * loan.interestRatePerSecond / DENOMINATOR`. -/
def rateDeltaOf (lender borrower : Addr) (now : ℕ) (s : State Addr) : ℕ :=
  interestOf lender borrower now s * (s.loans lender borrower).interestRatePerSecond
    / DENOMINATOR

/-- Claim C5: for a loan with positive amount and a monotone clock,
`updateLoan` adds `interest = amount * rate * elapsed / D` to the loan's
amount, adds `d = interest * rate / D` to the lender's `owedPerSecond`
and the borrower's `owesPerSecond`, adds `interest` to the lender's
`lent` and the borrower's `borrowed`, and stamps the loan and both
balances with `now`. -/
theorem updateLoan_accrues (l b : Addr) (now : ℕ) (s : State Addr)
    (hpos : 0 < (s.loans l b).amount) (hts : (s.loans l b).timestamp ≤ now) :
    ((updateLoan l b now s).loans l b).amount
      = (s.loans l b).amount + interestOf l b now s ∧
    ((updateLoan l b now s).balances l).owedPerSecond
      = (s.balances l).owedPerSecond + rateDeltaOf l b now s ∧
    ((updateLoan l b now s).balances b).owesPerSecond
      = (s.balances b).owesPerSecond + rateDeltaOf l b now s ∧
    ((updateLoan l b now s).balances l).lent
      = (s.balances l).lent + interestOf l b now s ∧
    ((updateLoan l b now s).balances b).borrowed
      = (s.balances b).borrowed + interestOf l b now s ∧
    ((updateLoan l b now s).loans l b).timestamp = now ∧
    ((updateLoan l b now s).balances l).timestamp = now ∧
    ((updateLoan l b now s).balances b).timestamp = now := by
  by_cases hlb : l = b
  · subst hlb
    simp [updateLoan, interestOf, rateDeltaOf, hpos]
  · simp [updateLoan, interestOf, rateDeltaOf, hpos, hlb, Ne.symm hlb]

/-- The state used by concrete accrual witnesses: a single loan of
`100·10^18` at rate `0.1·10^18`, opened at time `0`, between accounts
`0` (lender) and `1` (borrower) of a two-account world. -/
def accrualScenarioState : State (Fin 2) :=
  { limits := fun _ => UserLimits.zero
  , balances := fun a => if a = 0 then { UserBalance.zero with lent := 100 * 10 ^ 18 }
      else { UserBalance.zero with borrowed := 100 * 10 ^ 18 }
  , loans := fun l b =>
      if l = 0 ∧ b = 1 then ⟨100 * 10 ^ 18, 10 ^ 17, 0⟩ else Loan.zero }

/-- Witness for C5 at the specification's concrete scenario: the loan of
`100·10^18` at rate `0.1·10^18` accrued for `10` time units reaches
amount `200·10^18`. -/
theorem updateLoan_accrues_witness :
    0 < (accrualScenarioState.loans 0 1).amount ∧
    (accrualScenarioState.loans 0 1).timestamp ≤ 10 ∧
    ((updateLoan 0 1 10 accrualScenarioState).loans 0 1).amount = 200 * 10 ^ 18 := by
  refine ⟨by decide, by decide, ?_⟩
  rw [(updateLoan_accrues 0 1 10 accrualScenarioState (by decide) (by decide)).1]
  decide

/-- Claim C7: `_borrow` merges new principal `amount` at rate `ir` into
the pair's loan of amount `a`, yielding amount `a + amount` and, for
`a = 0`, rate exactly `ir` (the stale rate ignored), otherwise the
principal-weighted average `(a*ra + amount*ir) / (a + amount)` under
integer division. -/
theorem borrow_weighted_rate_merge (l b : Addr) (amount ir : ℕ) (s : State Addr) :
    ((_borrow l b amount ir s).loans l b).amount = (s.loans l b).amount + amount ∧
    ((_borrow l b amount ir s).loans l b).interestRatePerSecond
      = (if (s.loans l b).amount = 0 then ir
         else ((s.loans l b).amount * (s.loans l b).interestRatePerSecond + amount * ir)
            / ((s.loans l b).amount + amount)) := by
  constructor <;> simp [_borrow]

/-- `updateLoan` is the identity on a state whose pair loan and party
balances are already stamped `now`: elapsed time is zero, so zero
interest is added and every write stores the value already present. -/
theorem updateLoan_fixed (l b : Addr) (now : ℕ) (s : State Addr)
    (h1 : (s.loans l b).timestamp = now) (h2 : (s.balances l).timestamp = now)
    (h3 : (s.balances b).timestamp = now) : updateLoan l b now s = s := by
  have e0 : now - (s.loans l b).timestamp = 0 := by rw [h1, Nat.sub_self]
  refine State.ext ?_ ?_ ?_
  · simp only [updateLoan]
    split <;> rfl
  · funext x
    by_cases hxl : x = l <;> by_cases hxb : x = b <;>
      simp [updateLoan, e0, hxl, hxb, h1, h2, h3] <;>
      split <;> simp_all <;> ext <;> simp_all
  · funext x y
    by_cases hxl : x = l <;> by_cases hyb : y = b <;>
      simp [updateLoan, e0, hxl, hyb, h1, h2, h3] <;>
      split <;> simp_all <;> ext <;> simp_all

/-- After `updateLoan`, the pair's loan and both parties' balances carry
timestamp `now` (source lines 177-179, reached on both branches). -/
theorem updateLoan_timestamps (l b : Addr) (now : ℕ) (s : State Addr) :
    ((updateLoan l b now s).loans l b).timestamp = now ∧
    ((updateLoan l b now s).balances l).timestamp = now ∧
    ((updateLoan l b now s).balances b).timestamp = now := by
  by_cases hlb : l = b
  · subst hlb
    simp [updateLoan]
    split <;> simp
  · refine ⟨?_, ?_, ?_⟩ <;>
    · simp [updateLoan]
      split <;> simp [hlb, Ne.symm hlb]

/-- Claim C9: accrual is idempotent at a fixed time — running
`updateLoan` twice for the same pair at the same `now` leaves exactly
the state of running it once; the second call changes nothing. -/
theorem updateLoan_idempotent (l b : Addr) (now : ℕ) (s : State Addr) :
    updateLoan l b now (updateLoan l b now s) = updateLoan l b now s :=
  updateLoan_fixed l b now _ (updateLoan_timestamps l b now s).1
    (updateLoan_timestamps l b now s).2.1 (updateLoan_timestamps l b now s).2.2

/-- Claim C2: a `borrow` that reverts with any error leaves every
`Loan`, `UserBalance` and `UserLimits` entry at its pre-call value —
the returned state is the pre-call state itself. -/
theorem borrow_all_or_nothing (caller : Addr) (amount : ℕ) (path : List Addr) (irs : List ℕ)
    (trusted : Addr → Addr → Bool) (execOk : Addr → Addr → ℕ → Bool) (now : ℕ)
    (s : State Addr) (e : Err Addr) :
    (borrow caller amount path irs trusted execOk now s).2.2 = some e →
    (borrow caller amount path irs trusted execOk now s).1 = s := by
  cases path with
  | nil => intro _; rfl
  | cons p0 prest =>
    simp only [borrow]
    split
    · intro _; rfl
    · split
      · split
        · intro h; simp at h
        · intro _; rfl
      · intro _; rfl

/-- The two-account state used by the revert witness: account `0` may
lend up to `10` at any rate; everything else is zero. -/
def lenderCapTenState : State (Fin 2) :=
  { limits := fun a => if a = 0 then { UserLimits.zero with lendingCap := 10 }
      else UserLimits.zero
  , balances := fun _ => UserBalance.zero
  , loans := fun _ _ => Loan.zero }

/-- Witness for C2: caller `1` borrowing `1` along `[0, 1]` fails with
`OverBorrowingCap` (account `1` relays with `borrowCap = 0`), and the
returned ledger is exactly the pre-call one. -/
theorem borrow_all_or_nothing_witness :
    (borrow 1 1 [0, 1] [0, 0] (fun _ _ => true) (fun _ _ _ => true) 0
        lenderCapTenState).2.2 = some (Err.overBorrowingCap 1 1) ∧
    (borrow 1 1 [0, 1] [0, 0] (fun _ _ => true) (fun _ _ _ => true) 0
        lenderCapTenState).1 = lenderCapTenState :=
  ⟨by decide, borrow_all_or_nothing 1 1 [0, 1] [0, 0] (fun _ _ => true) (fun _ _ _ => true) 0
    lenderCapTenState (Err.overBorrowingCap 1 1) (by decide)⟩

/-- Every transfer of a trace is paid by `c`. -/
def allPaidBy (c : Addr) : List (Event Addr) → Bool
  | [] => true
  | Event.mutation :: rest => allPaidBy c rest
  | Event.transfer payer _ _ _ :: rest => decide (payer = c) && allPaidBy c rest

@[simp]
theorem allPaidBy_nil (c : Addr) : allPaidBy c ([] : List (Event Addr)) = true := rfl

@[simp]
theorem allPaidBy_cons_mutation (c : Addr) (evs : List (Event Addr)) :
    allPaidBy c (Event.mutation :: evs) = allPaidBy c evs := rfl

@[simp]
theorem allPaidBy_cons_transfer (c p q : Addr) (a : ℕ) (ok : Bool) (evs : List (Event Addr)) :
    allPaidBy c (Event.transfer p q a ok :: evs) = (decide (p = c) && allPaidBy c evs) := rfl

@[simp]
theorem allPaidBy_append (c : Addr) (evs evs2 : List (Event Addr)) :
    allPaidBy c (evs ++ evs2) = (allPaidBy c evs && allPaidBy c evs2) := by
  induction evs with
  | nil => simp
  | cons e rest ih => cases e <;> simp [ih, Bool.and_assoc]

@[simp]
theorem transferDests_nil : transferDests ([] : List (Event Addr)) = [] := rfl

@[simp]
theorem transferDests_cons_mutation (evs : List (Event Addr)) :
    transferDests (Event.mutation :: evs) = transferDests evs := rfl

@[simp]
theorem transferDests_cons_transfer (p q : Addr) (a : ℕ) (ok : Bool) (evs : List (Event Addr)) :
    transferDests (Event.transfer p q a ok :: evs) = (q, a) :: transferDests evs := rfl

@[simp]
theorem transferDests_append (evs evs2 : List (Event Addr)) :
    transferDests (evs ++ evs2) = transferDests evs ++ transferDests evs2 := by
  simp [transferDests]

/-- The repay loop ignores the caller except as payer of its transfers:
final state, transfer destinations and amounts agree between any two
callers, and each trace's transfers are all paid by its caller. -/
theorem repayGo_caller (now : ℕ) (tOk : Addr → Addr → ℕ → Bool) (c1 c2 : Addr) :
    ∀ (path : List Addr) (first : Bool) (amount : ℕ) (s : State Addr),
    (repayGo c1 now tOk first amount path s).1 = (repayGo c2 now tOk first amount path s).1 ∧
    transferDests (repayGo c1 now tOk first amount path s).2
      = transferDests (repayGo c2 now tOk first amount path s).2 ∧
    allPaidBy c1 (repayGo c1 now tOk first amount path s).2 = true ∧
    allPaidBy c2 (repayGo c2 now tOk first amount path s).2 = true := by
  intro path
  induction path with
  | nil => intro first amount s; simp [repayGo]
  | cons hd tl ih =>
    intro first amount s
    cases tl with
    | nil =>
      by_cases hamt : 0 < amount <;> simp [repayGo, hamt]
    | cons hd2 tl2 =>
      obtain ⟨ih1, ih2, ih3, ih4⟩ := ih false (_repay hd2 hd amount (updateLoan hd2 hd now s)).1
        (_repay hd2 hd amount (updateLoan hd2 hd now s)).2
      simp only [repayGo]
      by_cases hr : 0 < amount - (_repay hd2 hd amount (updateLoan hd2 hd now s)).1 ∧ first = false
      · simp only [hr, if_pos, ite_true, if_true]
        refine ⟨ih1, ?_, ?_, ?_⟩ <;>
          simp [ih2, ih3, ih4]
      · simp only [hr, if_neg, ite_false, if_false]
        refine ⟨ih1, ?_, ?_, ?_⟩ <;>
          simp [ih2, ih3, ih4]

/-- Claim C10: `repay` never checks the caller against `path[0]`: two
invocations differing only in the caller produce the same ledger state,
the same outcome, and cash transfers with the same recipients and
amounts; the caller determines only who pays each transfer.  In
particular any account can reduce loans between third parties by paying
the cash itself. -/
theorem repay_caller_independent (c1 c2 : Addr) (amount : ℕ) (path : List Addr)
    (tOk : Addr → Addr → ℕ → Bool) (now : ℕ) (s : State Addr) :
    (repay c1 amount path tOk now s).1 = (repay c2 amount path tOk now s).1 ∧
    (repay c1 amount path tOk now s).2.2 = (repay c2 amount path tOk now s).2.2 ∧
    transferDests (repay c1 amount path tOk now s).2.1
      = transferDests (repay c2 amount path tOk now s).2.1 ∧
    allPaidBy c1 (repay c1 amount path tOk now s).2.1 = true ∧
    allPaidBy c2 (repay c2 amount path tOk now s).2.1 = true := by
  cases path with
  | nil => simp [repay]
  | cons p prest =>
    obtain ⟨h1, h2, h3, h4⟩ := repayGo_caller now tOk c1 c2 (p :: prest) true amount s
    exact ⟨h1, rfl, h2, h3, h4⟩

/-- A trace contains ledger mutations only. -/
def allMutations : List (Event Addr) → Bool
  | [] => true
  | Event.mutation :: rest => allMutations rest
  | Event.transfer _ _ _ _ :: _ => false

@[simp]
theorem allMutations_nil : allMutations ([] : List (Event Addr)) = true := rfl

@[simp]
theorem allMutations_cons_mutation (evs : List (Event Addr)) :
    allMutations (Event.mutation :: evs) = allMutations evs := rfl

@[simp]
theorem allMutations_cons_transfer (p q : Addr) (a : ℕ) (ok : Bool) (evs : List (Event Addr)) :
    allMutations (Event.transfer p q a ok :: evs) = false := rfl

/-- A mutation-only trace followed by one final transfer satisfies
`mutationsFirst`. -/
theorem mutationsFirst_append_transfer (evs : List (Event Addr)) (p q : Addr) (a : ℕ) (ok : Bool)
    (h : allMutations evs = true) :
    mutationsFirst (evs ++ [Event.transfer p q a ok]) = true := by
  induction evs with
  | nil => rfl
  | cons e rest ih =>
    cases e with
    | mutation => simpa [mutationsFirst] using ih (by simpa using h)
    | transfer _ _ _ _ => simp at h

/-- The borrow loop's trace consists of ledger mutations only: the
single transfer of a borrow comes after the loop. -/
theorem borrowGo_events_mutations (caller : Addr) (amount now : ℕ)
    (trusted : Addr → Addr → Bool) :
    ∀ (path : List Addr) (irs : List ℕ) (s : State Addr),
    allMutations (borrowGo caller amount now trusted path irs s).2.1 = true := by
  intro path
  induction path with
  | nil => intro irs s; simp [borrowGo]
  | cons p prest ih =>
    intro irs s
    cases prest with
    | nil =>
      cases irs with
      | nil => simp [borrowGo]
      | cons ir irtail =>
        cases irtail with
        | nil =>
          simp only [borrowGo]
          split_ifs <;> simp
        | cons ir2 irtail2 => simp [borrowGo]
    | cons q ps =>
      cases irs with
      | nil => simp [borrowGo]
      | cons ir irtail =>
        cases irtail with
        | nil => simp [borrowGo]
        | cons ir2 irtail2 =>
          simp only [borrowGo]
          split_ifs <;> simp [ih]

/-- The state used by the transfer-ordering counterexample: a chain of
loans `1←0` of `10`, `2←1` of `5` and `3←2` of `7` (written
`lender←borrower`), all at rate zero, with matching aggregates. -/
def repayOrderState : State (Fin 4) :=
  { limits := fun _ => UserLimits.zero
  , balances := fun a =>
      if a = 0 then { UserBalance.zero with borrowed := 10 }
      else if a = 1 then { UserBalance.zero with lent := 10, borrowed := 5 }
      else if a = 2 then { UserBalance.zero with lent := 5, borrowed := 7 }
      else { UserBalance.zero with lent := 7 }
  , loans := fun l b =>
      if l = 1 ∧ b = 0 then { Loan.zero with amount := 10 }
      else if l = 2 ∧ b = 1 then { Loan.zero with amount := 5 }
      else if l = 3 ∧ b = 2 then { Loan.zero with amount := 7 }
      else Loan.zero }

/-- Counterexample to Claim C4 as stated: repaying `10` along
`[0, 1, 2, 3]` over `repayOrderState` succeeds, yet its trace moves
cash (the mid-chain refund of `5` to account `1`) before the ledger
mutations of the following hop — a transfer precedes later mutations. -/
theorem repay_transfer_before_mutation :
    (repay 0 10 [0, 1, 2, 3] (fun _ _ _ => true) 0 repayOrderState).2.2
      = none ∧
    mutationsFirst
      (repay 0 10 [0, 1, 2, 3] (fun _ _ _ => true) 0 repayOrderState).2.1
      = false := by
  constructor <;> decide

/-- Claim C4, amended: in every successful `borrow` all ledger
mutations precede the single external transfer; for `repay` the same
holds for paths of at most three accounts (there a refund can be issued
only by the last loop iteration, after that iteration's own mutations),
while paths of four or more accounts may interleave a mid-chain refund
transfer before later hops' ledger mutations. -/
theorem mutations_precede_transfers :
    (∀ (caller : Addr) (amount : ℕ) (path : List Addr) (irs : List ℕ)
       (trusted : Addr → Addr → Bool) (execOk : Addr → Addr → ℕ → Bool) (now : ℕ)
       (s : State Addr),
       (borrow caller amount path irs trusted execOk now s).2.2 = none →
       mutationsFirst (borrow caller amount path irs trusted execOk now s).2.1 = true) ∧
    (∀ (caller : Addr) (amount : ℕ) (path : List Addr)
       (tOk : Addr → Addr → ℕ → Bool) (now : ℕ) (s : State Addr),
       path.length ≤ 3 →
       mutationsFirst (repay caller amount path tOk now s).2.1 = true) := by
  constructor
  · intro caller amount path irs trusted execOk now s h
    cases path with
    | nil => simp [borrow] at h
    | cons p0 prest =>
      simp only [borrow] at h ⊢
      by_cases hlen : (p0 :: prest).length ≠ irs.length
      · rw [if_pos hlen] at h
        simp at h
      · rw [if_neg hlen] at h ⊢
        rcases hgo : borrowGo caller amount now trusted (p0 :: prest) irs s with ⟨s3, evs2, e⟩
        rw [hgo] at h
        cases e with
        | some err => exact Option.noConfusion h
        | none =>
          dsimp only at h ⊢
          by_cases hexec : execOk p0 caller amount = true
          · rw [if_pos hexec]
            refine mutationsFirst_append_transfer _ _ _ _ _ ?_
            have hm := borrowGo_events_mutations caller amount now trusted (p0 :: prest) irs s
            rw [hgo] at hm
            exact hm
          · rw [if_neg hexec] at h
            simp at h
  · intro caller amount path tOk now s hlen
    match path with
    | [] => rfl
    | [b] =>
      by_cases hamt : 0 < amount <;> simp [repay, repayGo, hamt, mutationsFirst, Event.isTransfer]
    | [b, l] =>
      simp only [repay, repayGo]
      by_cases hamt : 0 < (_repay l b amount (updateLoan l b now s)).1 <;>
        simp [hamt, mutationsFirst, Event.isTransfer]
    | [b, l, x] =>
      simp only [repay, repayGo]
      by_cases hr : 0 < (_repay l b amount (updateLoan l b now s)).1 -
          (_repay x l (_repay l b amount (updateLoan l b now s)).1
            (updateLoan x l now (_repay l b amount (updateLoan l b now s)).2)).1 <;>
        by_cases hf : 0 < (_repay x l (_repay l b amount (updateLoan l b now s)).1
            (updateLoan x l now (_repay l b amount (updateLoan l b now s)).2)).1 <;>
        simp [hr, hf, mutationsFirst, Event.isTransfer]
    | b :: l :: x :: y :: rest => simp at hlen

/-- Witness for the amended C4: a concrete successful borrow has a
mutations-then-transfer trace, and so does a concrete three-element
repay whose last hop issues a refund. -/
theorem mutations_precede_transfers_witness :
    (borrow 1 1 [0] [0] (fun _ _ => true) (fun _ _ _ => true) 0
        lenderCapTenState).2.2 = none ∧
    mutationsFirst (borrow 1 1 [0] [0] (fun _ _ => true) (fun _ _ _ => true) 0
        lenderCapTenState).2.1 = true ∧
    ([0, 1, 2] : List (Fin 4)).length ≤ 3 ∧
    mutationsFirst (repay 0 10 [0, 1, 2] (fun _ _ _ => true) 0
        repayOrderState).2.1 = true :=
  ⟨by decide,
   mutations_precede_transfers.1 1 1 [0] [0] (fun _ _ => true) (fun _ _ _ => true) 0
     lenderCapTenState (by decide),
   by decide,
   mutations_precede_transfers.2 0 10 [0, 1, 2] (fun _ _ _ => true) 0
     repayOrderState (by decide)⟩

/-- Inside the borrow loop a borrower-side policy error
(`OverBorrowingCap`, `OverBorrowerMaxIR`, `UnderRelayerMargin`) always
names the receiver of a non-final hop, an element of the path's tail. -/
theorem borrowGo_borrower_side_mem (caller : Addr) (amount now : ℕ)
    (trusted : Addr → Addr → Bool) :
    ∀ (path : List Addr) (irs : List ℕ) (s : State Addr) (e : Err Addr) (a : Addr),
    (borrowGo caller amount now trusted path irs s).2.2 = some e →
    borrowerSideAccount e = some a → a ∈ path.tail := by
  intro path
  induction path with
  | nil =>
    intro irs s e a h ha
    simp [borrowGo] at h
    subst h
    simp [borrowerSideAccount] at ha
  | cons p prest ih =>
    intro irs s e a h ha
    cases prest with
    | nil =>
      cases irs with
      | nil => simp [borrowGo] at h; subst h; simp [borrowerSideAccount] at ha
      | cons ir irtail =>
        cases irtail with
        | nil =>
          simp only [borrowGo] at h
          split_ifs at h <;> simp at h <;> subst h <;> simp [borrowerSideAccount] at ha
        | cons ir2 irtail2 =>
          simp [borrowGo] at h; subst h; simp [borrowerSideAccount] at ha
    | cons q ps =>
      cases irs with
      | nil => simp [borrowGo] at h; subst h; simp [borrowerSideAccount] at ha
      | cons ir irtail =>
        cases irtail with
        | nil => simp [borrowGo] at h; subst h; simp [borrowerSideAccount] at ha
        | cons ir2 irtail2 =>
          simp only [borrowGo] at h
          split_ifs at h
          all_goals simp at h
          case _ => subst h; simp [borrowerSideAccount] at ha
          case _ => subst h; simp [borrowerSideAccount] at ha
          case _ => subst h; simp [borrowerSideAccount] at ha; subst ha; simp
          case _ => subst h; simp [borrowerSideAccount] at ha; subst ha; simp
          case _ => subst h; simp [borrowerSideAccount] at ha; subst ha; simp
          case _ => subst h; simp [borrowerSideAccount] at ha; subst ha; simp
          case _ => subst h; simp [borrowerSideAccount] at ha
          case _ =>
            have := ih (ir2 :: irtail2) _ e a h ha
            simpa using List.mem_cons_of_mem q (by simpa using this)

/-- Counterexample to Claim C6 as stated: with the caller's own address
occurring at an intermediate position of the path, `borrow` does fail
with a borrower-side error naming the caller — caller `1` borrowing
along `[0, 1]` is rejected with `OverBorrowingCap(1, 1)`. -/
theorem borrower_check_hits_caller :
    (borrow 1 1 [0, 1] [0, 0] (fun _ _ => true) (fun _ _ _ => true) 0
        lenderCapTenState).2.2 = some (Err.overBorrowingCap 1 1) ∧
    borrowerSideAccount (Err.overBorrowingCap (1 : Fin 2) 1) = some 1 := by
  constructor <;> decide

/-- Claim C6, amended: the borrower-side checks run only against
receivers of non-final hops, i.e. accounts occurring in `path.tail`;
a borrower-side error therefore never blames the source position or the
final (caller) position, and can name `path[0]`'s or the caller's
address only when that address itself recurs in `path[1..]`. -/
theorem borrow_borrower_checks_only_relayers (caller : Addr) (amount : ℕ)
    (path : List Addr) (irs : List ℕ) (trusted : Addr → Addr → Bool)
    (execOk : Addr → Addr → ℕ → Bool) (now : ℕ) (s : State Addr) (e : Err Addr) (a : Addr) :
    (borrow caller amount path irs trusted execOk now s).2.2 = some e →
    borrowerSideAccount e = some a → a ∈ path.tail := by
  intro h ha
  cases path with
  | nil =>
    simp [borrow] at h
    subst h
    simp [borrowerSideAccount] at ha
  | cons p0 prest =>
    simp only [borrow] at h
    by_cases hlen : (p0 :: prest).length ≠ irs.length
    · rw [if_pos hlen] at h
      simp at h
      subst h
      simp [borrowerSideAccount] at ha
    · rw [if_neg hlen] at h
      rcases hgo : borrowGo caller amount now trusted (p0 :: prest) irs s with ⟨s3, evs2, e2⟩
      rw [hgo] at h
      cases e2 with
      | some err =>
        dsimp only at h
        simp at h
        subst h
        exact borrowGo_borrower_side_mem caller amount now trusted (p0 :: prest) irs s err a
          (by rw [hgo]) ha
      | none =>
        dsimp only at h
        by_cases hexec : execOk p0 caller amount = true
        · rw [if_pos hexec] at h
          exact Option.noConfusion h
        · rw [if_neg hexec] at h
          simp at h
          subst h
          simp [borrowerSideAccount] at ha

/-- Witness for the amended C6: a concrete borrower-side failure names
account `1`, which indeed lies in the path's tail. -/
theorem borrow_borrower_checks_only_relayers_witness :
    (borrow 0 1 [0, 1] [0, 0] (fun _ _ => true) (fun _ _ _ => true) 0
        lenderCapTenState).2.2 = some (Err.overBorrowingCap 1 1) ∧
    borrowerSideAccount (Err.overBorrowingCap (1 : Fin 2) 1) = some 1 ∧
    (1 : Fin 2) ∈ ([0, 1] : List (Fin 2)).tail :=
  ⟨by decide, by decide,
   borrow_borrower_checks_only_relayers 0 1 [0, 1] [0, 0] (fun _ _ => true)
     (fun _ _ _ => true) 0 lenderCapTenState (Err.overBorrowingCap 1 1) 1
     (by decide) (by decide)⟩

@[simp]
theorem totalCash_nil : totalCash ([] : List (Event Addr)) = 0 := rfl

@[simp]
theorem totalCash_cons_mutation (evs : List (Event Addr)) :
    totalCash (Event.mutation :: evs) = totalCash evs := by
  simp [totalCash, Event.cash]

@[simp]
theorem totalCash_cons_transfer (p q : Addr) (a : ℕ) (ok : Bool) (evs : List (Event Addr)) :
    totalCash (Event.transfer p q a ok :: evs) = a + totalCash evs := by
  simp [totalCash, Event.cash]

@[simp]
theorem totalCash_append (evs evs2 : List (Event Addr)) :
    totalCash (evs ++ evs2) = totalCash evs + totalCash evs2 := by
  simp [totalCash]

/-- `_repay` never repays more than offered. -/
theorem _repay_le (l b : Addr) (offered : ℕ) (s : State Addr) :
    (_repay l b offered s).1 ≤ offered := by
  simp only [_repay]
  split <;> omega

/-- Past the first hop, the repay loop moves exactly its incoming
amount in cash: each hop refunds what its loan could not absorb and
passes the rest on, and the loop's end pays out whatever remains. -/
theorem repayGo_cash (caller : Addr) (now : ℕ) (tOk : Addr → Addr → ℕ → Bool) :
    ∀ (path : List Addr) (hd : Addr) (amount : ℕ) (s : State Addr),
    totalCash (repayGo caller now tOk false amount (hd :: path) s).2 = amount := by
  intro path
  induction path with
  | nil =>
    intro hd amount s
    by_cases hamt : 0 < amount <;> simp [repayGo, hamt] <;> omega
  | cons hd2 tl ih =>
    intro hd amount s
    have hle := _repay_le hd2 hd amount (updateLoan hd2 hd now s)
    simp only [repayGo]
    by_cases hr : 0 < amount - (_repay hd2 hd amount (updateLoan hd2 hd now s)).1
    · simp [hr, ih]
      omega
    · simp [hr, ih]
      omega

/-- Claim C1, amended: for a repay path with at least one hop, the
total cash moved (mid-chain refunds plus the final payment) equals
`min(A, first loan's post-accrual amount)` — the caller's own debt
reduction — and never exceeds the offered `A`; and `_repay` reduces a
loan by exactly the amount it reports, never below zero.  The literal
sum of all per-hop debt reductions plus all cash moved is not `A`:
chain-internal netting reduces several loans with the same funds. -/
theorem repay_cash_conservation (caller : Addr) (amount : ℕ) (b l : Addr) (rest : List Addr)
    (tOk : Addr → Addr → ℕ → Bool) (now : ℕ) (s : State Addr) :
    totalCash (repay caller amount (b :: l :: rest) tOk now s).2.1
      = min amount ((updateLoan l b now s).loans l b).amount ∧
    totalCash (repay caller amount (b :: l :: rest) tOk now s).2.1 ≤ amount ∧
    (∀ (l2 b2 : Addr) (offered : ℕ) (s2 : State Addr),
      ((_repay l2 b2 offered s2).2.loans l2 b2).amount + (_repay l2 b2 offered s2).1
        = (s2.loans l2 b2).amount) := by
  have hrepay : ∀ (l2 b2 : Addr) (offered : ℕ) (s2 : State Addr),
      ((_repay l2 b2 offered s2).2.loans l2 b2).amount + (_repay l2 b2 offered s2).1
        = (s2.loans l2 b2).amount := by
    intro l2 b2 offered s2
    simp only [_repay]
    split <;> simp <;> omega
  have hmin : (_repay l b amount (updateLoan l b now s)).1
      = min amount ((updateLoan l b now s).loans l b).amount := by
    simp only [_repay]
    split <;> simp <;> omega
  refine ⟨?_, ?_, hrepay⟩
  · simp only [repay, repayGo]
    simp [repayGo_cash caller now tOk rest l, hmin]
  · simp only [repay, repayGo]
    simp [repayGo_cash caller now tOk rest l, hmin]

/-- The state used by the conservation counterexample: one loan, `1`
lent `10` to `0` at rate zero, aggregates matching. -/
def repayConsState : State (Fin 2) :=
  { limits := fun _ => UserLimits.zero
  , balances := fun a => if a = 0 then { UserBalance.zero with borrowed := 10 }
      else { UserBalance.zero with lent := 10 }
  , loans := fun l b => if l = 1 ∧ b = 0 then { Loan.zero with amount := 10 } else Loan.zero }

/-- Counterexample to Claim C1 as stated: repaying `A = 10` along
`[0, 1]` against a loan of `10` reduces the chain's loans by `10` and
moves `10` in cash to the final path element, so reductions plus cash
total `20`, not `A` — the stated conservation equation fails. -/
theorem repay_conservation_counterexample :
    (repay 0 10 [0, 1] (fun _ _ _ => true) 0 repayConsState).2.2 = none ∧
    ¬ (totalLoanReduction repayConsState
        (repay 0 10 [0, 1] (fun _ _ _ => true) 0 repayConsState).1
      + totalCash (repay 0 10 [0, 1] (fun _ _ _ => true) 0
          repayConsState).2.1 = 10) := by
  constructor <;> decide

/-- The state used by the ignored-transfer-failure theorem: one loan,
`1` lent `5` to `0` at rate zero, aggregates matching. -/
def repayIgnoreState : State (Fin 2) :=
  { limits := fun _ => UserLimits.zero
  , balances := fun a => if a = 0 then { UserBalance.zero with borrowed := 5 }
      else { UserBalance.zero with lent := 5 }
  , loans := fun l b => if l = 1 ∧ b = 0 then { Loan.zero with amount := 5 } else Loan.zero }

/-- Claim C3 (code bug): `repay` discards the value-transfer
primitive's result (source lines 148 and 154 ignore the boolean
`transferFrom` returns, and `TransferFailed` is raised only by
`borrow`).  Even when every cash movement reports failure, repay
completes without error, the debt reduction survives (the loan of `5`
drops to `0`), and the trace records the failed transfer. -/
theorem repay_ignores_transfer_failure :
    (repay 0 5 [0, 1] (fun _ _ _ => false) 0 repayIgnoreState).2.2 = none ∧
    ((repay 0 5 [0, 1] (fun _ _ _ => false) 0
        repayIgnoreState).1.loans 1 0).amount = 0 ∧
    (repay 0 5 [0, 1] (fun _ _ _ => false) 0 repayIgnoreState).2.1
      = [Event.mutation, Event.mutation, Event.transfer 0 1 5 false] := by
  refine ⟨by decide, by decide, by decide⟩

/-- Adding `d` at one point of a finitely-supported total raises the
full sum by `d`. -/
theorem sum_update_add [Fintype Addr] (f : Addr → ℕ) (a : Addr) (d : ℕ) :
    ∑ x, Function.update f a (f a + d) x = (∑ x, f x) + d := by
  rw [Finset.sum_update_of_mem (Finset.mem_univ a),
      Finset.sum_eq_sum_diff_singleton_add (Finset.mem_univ a) f]
  omega

/-- Subtracting `d ≤ f a` at one point lowers the full sum by `d`. -/
theorem sum_update_sub [Fintype Addr] (f : Addr → ℕ) (a : Addr) (d : ℕ) (h : d ≤ f a) :
    ∑ x, Function.update f a (f a - d) x = (∑ x, f x) - d := by
  rw [Finset.sum_update_of_mem (Finset.mem_univ a),
      Finset.sum_eq_sum_diff_singleton_add (Finset.mem_univ a) f]
  omega

/-- A state transition that adds the same `d` to one loan's amount, to
its lender's `lent` and to its borrower's `borrowed` preserves the
ledger invariant. -/
theorem Inv_add_delta [Fintype Addr] (s s' : State Addr) (l b : Addr) (d : ℕ)
    (hInv : Inv s)
    (hloans : ∀ x y, (s'.loans x y).amount
      = if x = l ∧ y = b then (s.loans x y).amount + d else (s.loans x y).amount)
    (hlent : ∀ x, (s'.balances x).lent
      = if x = l then (s.balances x).lent + d else (s.balances x).lent)
    (hborr : ∀ x, (s'.balances x).borrowed
      = if x = b then (s.balances x).borrowed + d else (s.balances x).borrowed) :
    Inv s' := by
  intro a
  obtain ⟨h1, h2⟩ := hInv a
  constructor
  · rw [hlent a]
    by_cases hal : a = l
    · subst hal
      rw [if_pos rfl, h1]
      have hsum : ∑ y, (s'.loans a y).amount
          = ∑ y, Function.update (fun y2 => (s.loans a y2).amount) b
              ((s.loans a b).amount + d) y :=
        Finset.sum_congr rfl fun y _ => by
          rw [hloans a y, Function.update_apply]
          by_cases hyb : y = b <;> simp [hyb]
      rw [hsum, sum_update_add]
    · rw [if_neg hal]
      rw [h1]
      refine Finset.sum_congr rfl fun y _ => ?_
      rw [hloans a y, if_neg]
      simp [hal]
  · rw [hborr a]
    by_cases hab : a = b
    · subst hab
      rw [if_pos rfl, h2]
      have hsum : ∑ x, (s'.loans x a).amount
          = ∑ x, Function.update (fun x2 => (s.loans x2 a).amount) l
              ((s.loans l a).amount + d) x :=
        Finset.sum_congr rfl fun x _ => by
          rw [hloans x a, Function.update_apply]
          by_cases hxl : x = l <;> simp [hxl]
      rw [hsum, sum_update_add]
    · rw [if_neg hab]
      rw [h2]
      refine Finset.sum_congr rfl fun x _ => ?_
      rw [hloans x a, if_neg]
      simp [hab]

/-- A state transition that removes the same `d ≤ loan amount` from one
loan's amount, its lender's `lent` and its borrower's `borrowed`
preserves the ledger invariant. -/
theorem Inv_sub_delta [Fintype Addr] (s s' : State Addr) (l b : Addr) (d : ℕ)
    (hInv : Inv s) (hd : d ≤ (s.loans l b).amount)
    (hloans : ∀ x y, (s'.loans x y).amount
      = if x = l ∧ y = b then (s.loans x y).amount - d else (s.loans x y).amount)
    (hlent : ∀ x, (s'.balances x).lent
      = if x = l then (s.balances x).lent - d else (s.balances x).lent)
    (hborr : ∀ x, (s'.balances x).borrowed
      = if x = b then (s.balances x).borrowed - d else (s.balances x).borrowed) :
    Inv s' := by
  intro a
  obtain ⟨h1, h2⟩ := hInv a
  constructor
  · rw [hlent a]
    by_cases hal : a = l
    · subst hal
      rw [if_pos rfl, h1]
      have hsum : ∑ y, (s'.loans a y).amount
          = ∑ y, Function.update (fun y2 => (s.loans a y2).amount) b
              ((s.loans a b).amount - d) y :=
        Finset.sum_congr rfl fun y _ => by
          rw [hloans a y, Function.update_apply]
          by_cases hyb : y = b <;> simp [hyb]
      rw [hsum, sum_update_sub (fun y2 => (s.loans a y2).amount) b d hd]
    · rw [if_neg hal]
      rw [h1]
      refine Finset.sum_congr rfl fun y _ => ?_
      rw [hloans a y, if_neg]
      simp [hal]
  · rw [hborr a]
    by_cases hab : a = b
    · subst hab
      rw [if_pos rfl, h2]
      have hsum : ∑ x, (s'.loans x a).amount
          = ∑ x, Function.update (fun x2 => (s.loans x2 a).amount) l
              ((s.loans l a).amount - d) x :=
        Finset.sum_congr rfl fun x _ => by
          rw [hloans x a, Function.update_apply]
          by_cases hxl : x = l <;> simp [hxl]
      rw [hsum, sum_update_sub (fun x2 => (s.loans x2 a).amount) l d hd]
    · rw [if_neg hab]
      rw [h2]
      refine Finset.sum_congr rfl fun x _ => ?_
      rw [hloans x a, if_neg]
      simp [hab]

/-- Accrual preserves the ledger invariant: interest is added to the
pair's loan and to both parties' aggregates alike. -/
theorem Inv_updateLoan [Fintype Addr] (l b : Addr) (now : ℕ) (s : State Addr) (hInv : Inv s) :
    Inv (updateLoan l b now s) := by
  by_cases hlb : l = b
  · subst hlb
    by_cases hpos : 0 < (s.loans l l).amount
    · refine Inv_add_delta s _ l l (interestOf l l now s) hInv ?_ ?_ ?_
      · intro x y
        by_cases hxl : x = l <;> by_cases hyl : y = l <;>
          simp [updateLoan, interestOf, hpos, hxl, hyl]
      · intro x
        by_cases hxl : x = l <;> simp [updateLoan, interestOf, hpos, hxl]
      · intro x
        by_cases hxl : x = l <;> simp [updateLoan, interestOf, hpos, hxl]
    · refine Inv_add_delta s _ l l 0 hInv ?_ ?_ ?_
      · intro x y
        by_cases hxl : x = l <;> by_cases hyl : y = l <;>
          simp [updateLoan, hpos, hxl, hyl]
      · intro x
        by_cases hxl : x = l <;> simp [updateLoan, hpos, hxl]
      · intro x
        by_cases hxl : x = l <;> simp [updateLoan, hpos, hxl]
  · by_cases hpos : 0 < (s.loans l b).amount
    · refine Inv_add_delta s _ l b (interestOf l b now s) hInv ?_ ?_ ?_
      · intro x y
        by_cases hxl : x = l <;> by_cases hyb : y = b <;>
          simp [updateLoan, interestOf, hpos, hxl, hyb, hlb, Ne.symm hlb]
      · intro x
        by_cases hxl : x = l <;> by_cases hxb : x = b <;>
          first
          | exact absurd (hxl.symm.trans hxb) hlb
          | simp [updateLoan, interestOf, hpos, hxl, hxb, hlb, Ne.symm hlb]
      · intro x
        by_cases hxl : x = l <;> by_cases hxb : x = b <;>
          first
          | exact absurd (hxl.symm.trans hxb) hlb
          | simp [updateLoan, interestOf, hpos, hxl, hxb, hlb, Ne.symm hlb]
    · refine Inv_add_delta s _ l b 0 hInv ?_ ?_ ?_
      · intro x y
        by_cases hxl : x = l <;> by_cases hyb : y = b <;>
          simp [updateLoan, hpos, hxl, hyb, hlb, Ne.symm hlb]
      · intro x
        by_cases hxl : x = l <;> by_cases hxb : x = b <;>
          first
          | exact absurd (hxl.symm.trans hxb) hlb
          | simp [updateLoan, hpos, hxl, hxb, hlb, Ne.symm hlb]
      · intro x
        by_cases hxl : x = l <;> by_cases hxb : x = b <;>
          first
          | exact absurd (hxl.symm.trans hxb) hlb
          | simp [updateLoan, hpos, hxl, hxb, hlb, Ne.symm hlb]

/-- `_borrow` preserves the ledger invariant: the new principal is
added to the pair's loan and to both parties' aggregates alike. -/
theorem Inv__borrow [Fintype Addr] (l b : Addr) (amount ir : ℕ) (s : State Addr)
    (hInv : Inv s) : Inv (_borrow l b amount ir s) := by
  by_cases hlb : l = b
  · subst hlb
    refine Inv_add_delta s _ l l amount hInv ?_ ?_ ?_
    · intro x y
      by_cases hxl : x = l <;> by_cases hyl : y = l <;>
        simp [_borrow, hxl, hyl]
    · intro x
      by_cases hxl : x = l <;> simp [_borrow, hxl]
    · intro x
      by_cases hxl : x = l <;> simp [_borrow, hxl]
  · refine Inv_add_delta s _ l b amount hInv ?_ ?_ ?_
    · intro x y
      by_cases hxl : x = l <;> by_cases hyb : y = b <;>
        simp [_borrow, hxl, hyb, hlb, Ne.symm hlb]
    · intro x
      by_cases hxl : x = l <;> by_cases hxb : x = b <;>
        first
        | exact absurd (hxl.symm.trans hxb) hlb
        | simp [_borrow, hxl, hxb, hlb, Ne.symm hlb]
    · intro x
      by_cases hxl : x = l <;> by_cases hxb : x = b <;>
        first
        | exact absurd (hxl.symm.trans hxb) hlb
        | simp [_borrow, hxl, hxb, hlb, Ne.symm hlb]

/-- `_repay` preserves the ledger invariant: the repaid value, at most
the loan's amount, is removed from the loan and both aggregates. -/
theorem Inv__repay [Fintype Addr] (l b : Addr) (offered : ℕ) (s : State Addr)
    (hInv : Inv s) : Inv (_repay l b offered s).2 := by
  have hd : (_repay l b offered s).1 ≤ (s.loans l b).amount := by
    simp only [_repay]
    split <;> omega
  by_cases hlb : l = b
  · subst hlb
    refine Inv_sub_delta s _ l l (_repay l l offered s).1 hInv hd ?_ ?_ ?_
    · intro x y
      by_cases hxl : x = l <;> by_cases hyl : y = l <;>
        by_cases hoff : offered < (s.loans l l).amount <;>
        simp [_repay, hoff, hxl, hyl]
    · intro x
      by_cases hxl : x = l <;> by_cases hoff : offered < (s.loans l l).amount <;>
        simp [_repay, hoff, hxl]
    · intro x
      by_cases hxl : x = l <;> by_cases hoff : offered < (s.loans l l).amount <;>
        simp [_repay, hoff, hxl]
  · refine Inv_sub_delta s _ l b (_repay l b offered s).1 hInv hd ?_ ?_ ?_
    · intro x y
      by_cases hxl : x = l <;> by_cases hyb : y = b <;>
        by_cases hoff : offered < (s.loans l b).amount <;>
        simp [_repay, hoff, hxl, hyb, hlb, Ne.symm hlb]
    · intro x
      by_cases hxl : x = l <;> by_cases hxb : x = b <;>
        first
        | exact absurd (hxl.symm.trans hxb) hlb
        | by_cases hoff : offered < (s.loans l b).amount <;>
            simp [_repay, hoff, hxl, hxb, hlb, Ne.symm hlb]
    · intro x
      by_cases hxl : x = l <;> by_cases hxb : x = b <;>
        first
        | exact absurd (hxl.symm.trans hxb) hlb
        | by_cases hoff : offered < (s.loans l b).amount <;>
            simp [_repay, hoff, hxl, hxb, hlb, Ne.symm hlb]

/-- Every state the borrow loop can return satisfies the invariant
when the entry state does. -/
theorem Inv_borrowGo [Fintype Addr] (caller : Addr) (amount now : ℕ)
    (trusted : Addr → Addr → Bool) :
    ∀ (path : List Addr) (irs : List ℕ) (s : State Addr), Inv s →
    Inv (borrowGo caller amount now trusted path irs s).1 := by
  intro path
  induction path with
  | nil => intro irs s h; exact h
  | cons p prest ih =>
    intro irs s h
    cases prest with
    | nil =>
      cases irs with
      | nil => exact h
      | cons ir irtail =>
        cases irtail with
        | nil =>
          have h2 : Inv (_borrow p caller amount ir (updateLoan p caller now s)) :=
            Inv__borrow _ _ _ _ _ (Inv_updateLoan _ _ _ _ h)
          simp only [borrowGo]
          split_ifs <;> exact h2
        | cons ir2 irtail2 => exact h
    | cons q ps =>
      cases irs with
      | nil => exact h
      | cons ir irtail =>
        cases irtail with
        | nil => exact h
        | cons ir2 irtail2 =>
          have h2 : Inv (_borrow p q amount ir (updateLoan p q now s)) :=
            Inv__borrow _ _ _ _ _ (Inv_updateLoan _ _ _ _ h)
          simp only [borrowGo]
          split_ifs <;> first
            | exact h2
            | exact ih (ir2 :: irtail2) _ h2

/-- Every state the repay loop can return satisfies the invariant when
the entry state does. -/
theorem Inv_repayGo [Fintype Addr] (caller : Addr) (now : ℕ) (tOk : Addr → Addr → ℕ → Bool) :
    ∀ (path : List Addr) (first : Bool) (amount : ℕ) (s : State Addr), Inv s →
    Inv (repayGo caller now tOk first amount path s).1 := by
  intro path
  induction path with
  | nil => intro first amount s h; exact h
  | cons hd tl ih =>
    intro first amount s h
    cases tl with
    | nil => exact h
    | cons hd2 tl2 =>
      simp only [repayGo]
      exact ih false _ _ (Inv__repay _ _ _ _ (Inv_updateLoan _ _ _ _ h))

/-- `borrow` preserves the ledger invariant, whether it succeeds or
reverts. -/
theorem Inv_borrow [Fintype Addr] (caller : Addr) (amount : ℕ) (path : List Addr)
    (irs : List ℕ) (trusted : Addr → Addr → Bool) (execOk : Addr → Addr → ℕ → Bool)
    (now : ℕ) (s : State Addr) (h : Inv s) :
    Inv (borrow caller amount path irs trusted execOk now s).1 := by
  cases path with
  | nil => exact h
  | cons p0 prest =>
    simp only [borrow]
    split
    · exact h
    · rcases hgo : borrowGo caller amount now trusted (p0 :: prest) irs s with ⟨s3, evs2, e⟩
      cases e with
      | some err => exact h
      | none =>
        dsimp only
        split
        · have := Inv_borrowGo caller amount now trusted (p0 :: prest) irs s h
          rw [hgo] at this
          exact this
        · exact h

/-- `repay` preserves the ledger invariant. -/
theorem Inv_repay [Fintype Addr] (caller : Addr) (amount : ℕ) (path : List Addr)
    (tOk : Addr → Addr → ℕ → Bool) (now : ℕ) (s : State Addr) (h : Inv s) :
    Inv (repay caller amount path tOk now s).1 := by
  cases path with
  | nil => exact h
  | cons p prest => exact Inv_repayGo caller now tOk (p :: prest) true amount s h

/-- `setSettings` touches no balance or loan, so it preserves the
ledger invariant. -/
theorem Inv_setSettings [Fintype Addr] (a : Addr) (lim : UserLimits) (s : State Addr)
    (h : Inv s) : Inv (setSettings a lim s) := h

/-- The freshly deployed contract satisfies the ledger invariant. -/
theorem Inv_empty [Fintype Addr] : Inv (emptyState Addr) := by
  intro a
  constructor <;> simp [emptyState, UserBalance.zero, Loan.zero]

/-- Claim C8: in every state reachable from the empty ledger by any
sequence of `setSettings`, `borrow`, `repay` and accrual operations,
each account's `lent` equals the sum of the amounts of the loans it
lends, and its `borrowed` the sum over the loans it owes. -/
theorem reachable_ledger_invariant [Fintype Addr] (s : State Addr) (h : Reachable s) :
    Inv s := by
  induction h with
  | empty => exact Inv_empty
  | settings a lim s2 _ ih => exact Inv_setSettings a lim s2 ih
  | borrowStep caller amount path irs trusted execOk now s2 _ ih =>
    exact Inv_borrow caller amount path irs trusted execOk now s2 ih
  | repayStep caller amount path tOk now s2 _ ih =>
    exact Inv_repay caller amount path tOk now s2 ih
  | accrue lender borrower now s2 _ ih => exact Inv_updateLoan lender borrower now s2 ih

/-- Witness for C8: the invariant evaluated on a concrete reachable
state, after a settings update and a successful borrow of `5`. -/
theorem reachable_ledger_invariant_witness :
    Inv (borrow 1 5 [0] [0] (fun _ _ => true) (fun _ _ _ => true) 0
      (setSettings 0 ⟨10, 0, 0, 0, 0⟩ (emptyState (Fin 2)))).1 :=
  reachable_ledger_invariant _
    (Reachable.borrowStep 1 5 [0] [0] (fun _ _ => true) (fun _ _ _ => true) 0 _
      (Reachable.settings 0 ⟨10, 0, 0, 0, 0⟩ _ Reachable.empty))

end Raila
